import Mathlib

/-!
Verification of the financial_friend repository (FastAPI system design +
Streamlit news-agent prototypes) against its natural-language specification.

The Python source is shallowly embedded: database rows become structures,
the per-request handlers become pure functions over an explicit store
(a list of rows), HTTP exceptions become an error value, and Python
strings become lists of characters.  Machine-independent integers are
modelled by Nat / Int; timestamps by Int (seconds).
-/

/-- An HTTP error raised by a handler (fastapi.HTTPException). -/
structure HttpError where
  status_code : Nat
  detail : String
deriving DecidableEq, Repr

/-- Task status enumeration, from enums.py (class TaskStatus). -/
inductive TaskStatus where
  | pending
  | in_progress
  | completed
  | failed
  | cancelled
deriving DecidableEq, Repr

/-- The string value of each TaskStatus member (its .value in enums.py). -/
def TaskStatus.value : TaskStatus → String
  | .pending => "pending"
  | .in_progress => "in_progress"
  | .completed => "completed"
  | .failed => "failed"
  | .cancelled => "cancelled"

/-- enums.py TaskStatus.is_terminal: membership in (COMPLETED, FAILED, CANCELLED). -/
def TaskStatus.is_terminal (s : TaskStatus) : Bool :=
  s == TaskStatus.completed || s == TaskStatus.failed || s == TaskStatus.cancelled

/-- A row of the agent_tasks table (db_schema_design.py, class AgentTask).
JSON payloads are modelled as opaque strings. -/
structure AgentTask where
  task_id : Nat
  agent_id : Nat
  session_id : Nat
  input_data : Option String
  output_data : Option String
  error_reason : Option String
  duration_ms : Option Int
  status : TaskStatus
deriving DecidableEq, Repr

/-- routers/agent_tasks.py start_agent_task, after the task has been found:
reject with 400 naming the current status unless the task is pending,
otherwise move it to IN_PROGRESS. -/
def start_agent_task (task : AgentTask) : Except HttpError AgentTask :=
  if task.status ≠ TaskStatus.pending then
    Except.error ⟨400, "Task is already " ++ task.status.value⟩
  else
    Except.ok { task with status := TaskStatus.in_progress }

/-- routers/agent_tasks.py complete_agent_task, after the task has been found:
unconditionally set status COMPLETED and record output_data and duration_ms. -/
def complete_agent_task (task : AgentTask) (output_data : String)
    (duration_ms : Int) : AgentTask :=
  { task with
      status := TaskStatus.completed,
      output_data := some output_data,
      duration_ms := some duration_ms }

/-- routers/agent_tasks.py fail_agent_task, after the task has been found:
unconditionally set status FAILED, record error_reason, and record
duration_ms only when it is truthy in Python (neither None nor 0). -/
def fail_agent_task (task : AgentTask) (error_reason : String)
    (duration_ms : Option Int) : AgentTask :=
  { task with
      status := TaskStatus.failed,
      error_reason := some error_reason,
      duration_ms :=
        match duration_ms with
        | some d => if d ≠ 0 then some d else task.duration_ms
        | none => task.duration_ms }

/-- A row of the sessions table (db_schema_design.py, class Session). -/
structure SessionRow where
  session_id : Nat
  user_id : String
  session_token : String
  created_at : Int
  expires_at : Int
deriving DecidableEq, Repr

/-- routers/sessions.py get_session_by_token: look the session up by its
token (404 when absent), then reject with 401 when expires_at is strictly
before the current time. -/
def get_session_by_token (now : Int) (db : List SessionRow)
    (session_token : String) : Except HttpError SessionRow :=
  match db.find? (fun s => s.session_token == session_token) with
  | none => Except.error ⟨404, "Session not found"⟩
  | some session =>
    if session.expires_at < now then
      Except.error ⟨401, "Session expired"⟩
    else
      Except.ok session

/-- The mutation performed by routers/sessions.py refresh_session:
expires_at becomes utcnow() + timedelta(hours=24), in seconds. -/
def refresh_session_row (now : Int) (session : SessionRow) : SessionRow :=
  { session with expires_at := now + 24 * 3600 }

/-- routers/sessions.py refresh_session: look the session up by id
(404 when absent) and extend its expiry to 24 hours from now. -/
def refresh_session (now : Int) (db : List SessionRow)
    (session_id : Nat) : Except HttpError SessionRow :=
  match db.find? (fun s => s.session_id == session_id) with
  | none => Except.error ⟨404, "Session not found"⟩
  | some session => Except.ok (refresh_session_row now session)

/-- A row of the users table (db_schema_design.py, class User), with the
fields the user router reads or writes. -/
structure User where
  user_id : String
  email : String
  username : Option String
  last_active_at : Option Int
  deleted_at : Option Int
deriving DecidableEq, Repr

/-- routers/users.py get_users: list users whose deleted_at is NULL,
with offset and limit. -/
def get_users (skip lim : Nat) (db : List User) : List User :=
  ((db.filter (fun u => u.deleted_at.isNone)).drop skip).take lim

/-- routers/users.py get_user: first user matching the id whose
deleted_at is NULL, else 404. -/
def get_user (user_id : String) (db : List User) : Except HttpError User :=
  match db.find? (fun u => u.user_id == user_id && u.deleted_at.isNone) with
  | none => Except.error ⟨404, "User not found"⟩
  | some u => Except.ok u

/-- Stamp deleted_at on the first not-yet-deleted user with the given id,
leaving every other row in place; none when no such user exists.  This is
the store-level effect of the ORM query + mutation in delete_user. -/
def mark_deleted (now : Int) (user_id : String) : List User → Option (List User)
  | [] => none
  | u :: rest =>
    if u.user_id == user_id && u.deleted_at.isNone then
      some ({ u with deleted_at := some now } :: rest)
    else
      (mark_deleted now user_id rest).map (fun r => u :: r)

/-- routers/users.py delete_user (soft delete): 404 when no live user has
the id, otherwise stamp deleted_at = utcnow() and keep the row. -/
def delete_user (now : Int) (user_id : String) (db : List User) :
    Except HttpError (List User) :=
  match mark_deleted now user_id db with
  | none => Except.error ⟨404, "User not found"⟩
  | some db2 => Except.ok db2

/-- The lookup used by routers/users.py activate_user: it filters on
user_id only, with no deleted_at condition, so it can still reach a
soft-deleted row. -/
def find_user_unfiltered (user_id : String) (db : List User) : Option User :=
  db.find? (fun u => u.user_id == user_id)

/-- Lowercase hex digit for a value below 16 (models Python bytes.hex). -/
def hexDigitChar (n : Nat) : Char :=
  if n < 10 then Char.ofNat (48 + n) else Char.ofNat (97 + (n - 10))

/-- Python bytes.hex(): two lowercase hex digits per byte. -/
def bytesToHex (bs : List Nat) : List Char :=
  (bs.map (fun b => [hexDigitChar (b / 16 % 16), hexDigitChar (b % 16)])).flatten

/-- Python str.split on a single separator character, here the dollar sign:
every occurrence splits, and n occurrences yield n+1 pieces. -/
def pySplitDollar : List Char → List (List Char)
  | [] => [[]]
  | c :: rest =>
    if c = '$' then
      [] :: pySplitDollar rest
    else
      match pySplitDollar rest with
      | [] => [[c]]
      | h :: t => (c :: h) :: t

/-- Whether a character is one secrets.token_hex may produce: a decimal
digit or a lowercase letter from a to f. -/
def isTokenHexChar (c : Char) : Bool :=
  c.isDigit || ('a' ≤ c && c ≤ 'f')

/-- utils.py hash_password: draw a random hex salt and return
salt ++ dollar ++ pbkdf2_hmac(sha256, password, salt, 100000).hex().
The key-derivation primitive (hashlib.pbkdf2_hmac, an external library)
is a parameter: it maps the password and the salt to the derived key
bytes.  The drawn salt is passed explicitly so that the claim can range
over every salt the function may draw. -/
def hash_password (pbkdf2 : String → String → List Nat) (salt : List Char)
    (password : String) : List Char :=
  salt ++ '$' :: bytesToHex (pbkdf2 password (String.mk salt))

/-- utils.py verify_password: split the stored value on the dollar sign
(unpacking into exactly two pieces, anything else raises and is caught,
returning false), re-derive with the same salt, and compare hex digests. -/
def verify_password (pbkdf2 : String → String → List Nat) (password : String)
    (hashed_password : List Char) : Bool :=
  match pySplitDollar hashed_password with
  | [salt, stored_hash] =>
    bytesToHex (pbkdf2 password (String.mk salt)) == stored_hash
  | _ => false

/-- Python int() applied to a (nonnegative-or-negative) rational:
truncation toward zero. -/
def pyInt (q : ℚ) : ℤ :=
  if 0 ≤ q then ⌊q⌋ else ⌈q⌉

/-- st_news_agent_draft_v1.py estimate_tokens: int(len(text) * 0.5).
For every length below 2^53 the binary floating-point product is exact,
so the computation is modelled with exact rational arithmetic. -/
def estimate_tokens_v1 (text : List Char) : ℤ :=
  pyInt ((text.length : ℚ) * 0.5)

/-- st_news_agent_draft_v2.py estimate_tokens:
int(char_count / KOREAN_CHAR_TO_TOKEN_RATIO) with the ratio constant 2.0;
modelled with exact rational arithmetic as above. -/
def estimate_tokens_v2 (text : List Char) : ℤ :=
  pyInt ((text.length : ℚ) / 2)

/-- Python str.strip() default whitespace class, exactly the CPython
str.isspace set: horizontal tab through carriage return (9 to 13), the
file/group/record/unit separators (28 to 31), space, next line (0x85),
no-break space (0xA0), ogham space mark (0x1680), the Unicode space
separators 0x2000 to 0x200A, line separator (0x2028), paragraph
separator (0x2029), narrow no-break space (0x202F), medium mathematical
space (0x205F) and ideographic space (0x3000). -/
def isPySpace (c : Char) : Bool :=
  let n := c.toNat
  (9 ≤ n && n ≤ 13) || (28 ≤ n && n ≤ 31) || n == 32 || n == 133 || n == 160 ||
    n == 0x1680 || (0x2000 ≤ n && n ≤ 0x200A) || n == 0x2028 || n == 0x2029 ||
    n == 0x202F || n == 0x205F || n == 0x3000

/-- Python str.strip(): drop whitespace from both ends. -/
def pyStrip (l : List Char) : List Char :=
  ((l.dropWhile isPySpace).reverse.dropWhile isPySpace).reverse

/-- Whether the regex fragment dot-star-anchored-at-end can consume all of
rest: dot does not cross a newline and the anchor matches at the end of
the string or just before one final trailing newline. -/
def tailMatch (rest : List Char) : Bool :=
  rest.all (fun c => c != '\n') ||
    (rest.getLast? == some '\n' && rest.dropLast.all (fun c => c != '\n'))

/-- re.sub of a pattern start-class-then-dot-star-to-end replaced by the
empty string: scan for the first position whose character is in the start
class and from which the rest of the match can complete; everything from
there on is removed, except that one final trailing newline survives the
anchor.  No further match can begin in the surviving newline. -/
def subFrom (isStart : Char → Bool) : List Char → List Char
  | [] => []
  | c :: rest =>
    if isStart c && tailMatch rest then
      if rest.all (fun x => x != '\n') then [] else ['\n']
    else
      c :: subFrom isStart rest

/-- st_news_agent_draft_v1.py normalize_url: strip(), then remove from the
first question mark or hash sign to the end. -/
def normalize_url_v1 (url : List Char) : List Char :=
  subFrom (fun c => c == '?' || c == '#') (pyStrip url)

/-- st_news_agent_draft_v2.py normalize_url: url.lower().strip(), then
remove the query string (from the first question mark) and then the
fragment (from the first hash sign).  Python str.lower applies the full
Unicode lowercase mapping, an external character table that is not even
per-character (one code point may lowercase to two), so the lowercasing
pass is a parameter of the embedding, mapping the whole string; the
properties below hypothesise only what they need of it. -/
def normalize_url_v2 (lower : List Char → List Char) (url : List Char) :
    List Char :=
  subFrom (fun c => c == '#')
    (subFrom (fun c => c == '?') (pyStrip (lower url)))

/-- The Kernighan loop of st_news_agent_draft_v2.py hamming_distance:
while xor is nonzero, count one and clear the lowest set bit.  The loop
variable strictly decreases, so the value itself bounds the iteration
count and serves as structural fuel. -/
def kernighanGo : Nat → Nat → Nat
  | _, 0 => 0
  | 0, _ + 1 => 0
  | fuel + 1, x + 1 => 1 + kernighanGo fuel ((x + 1) &&& x)

/-- st_news_agent_draft_v2.py hamming_distance: popcount of the XOR of the
two fingerprints, computed by the bit-clearing loop. -/
def hamming_distance (hash1 hash2 : Nat) : Nat :=
  kernighanGo (hash1 ^^^ hash2) (hash1 ^^^ hash2)

/-- Reference popcount: sum of binary digits. -/
def popCountRef : Nat → Nat
  | 0 => 0
  | n + 1 => (n + 1) % 2 + popCountRef ((n + 1) / 2)
decreasing_by
  exact Nat.div_lt_self (Nat.succ_pos n) (by omega)

/-- An RSS article as fetched in the batch pipeline of
st_news_agent_draft_v2.py, before summarisation. -/
structure RawArticle where
  source : String
  url : String
  title : String
  raw_content : String
deriving DecidableEq, Repr

/-- Step 2 of st_news_agent_draft_v2.py batch_process_pipeline: walk the
fetched articles, fingerprint each one, and discard it when some already
accepted fingerprint is at Hamming distance below 3; otherwise accept it
and remember its fingerprint.  The fingerprinting function
(calculate_simhash over title + raw_content, which hashes tokens with
MD5 from the external hashlib library) is a parameter. -/
def dedup_articles (simhashOf : RawArticle → Nat) :
    List Nat → List RawArticle → List RawArticle
  | _, [] => []
  | seen_hashes, article :: rest =>
    let h := simhashOf article
    if seen_hashes.any (fun seen_hash => decide (hamming_distance h seen_hash < 3)) then
      dedup_articles simhashOf seen_hashes rest
    else
      article :: dedup_articles simhashOf (h :: seen_hashes) rest

/-- A row of the news table, with the fields the trending handler reads. -/
structure News where
  news_id : Nat
  title : String
  url : String
  deleted_at : Option Int
deriving DecidableEq, Repr

/-- A row of the user_news_interactions table. -/
structure UserNewsInteraction where
  interaction_id : Nat
  user_id : String
  news_id : Nat
  created_at : Int
deriving DecidableEq, Repr

/-- api_test.py get_trending_news.  The handler computes the look-back
threshold and builds the join of live news with recent interactions, but
its source is cut off at the grouping step: the final token is a bare
attribute access (group, never called), the assignment to the local
trending is the last statement, and the function body ends with no
return statement.  It therefore produces no value: the embedding binds
the partially built query and yields none. -/
def get_trending_news (news_db : List News)
    (inter_db : List UserNewsInteraction) (lim hours : Nat) (now : Int) :
    Option (List (News × Nat)) :=
  let time_threshold := now - (hours : Int) * 3600
  let _trending :=
    ((news_db.filter (fun n => n.deleted_at.isNone)).map
      (fun n =>
        (inter_db.filter
          (fun i => i.news_id == n.news_id && time_threshold ≤ i.created_at)).map
          (fun i => (n, i)))).flatten
  let _lim := lim
  none

/-!  Helper lemmas shared by several claims. -/

/-- A find? by token returns exactly the given member when tokens are
pairwise distinct in the store. -/
theorem find_session_by_token_of_mem (db : List SessionRow) (s : SessionRow)
    (hmem : s ∈ db)
    (huniq : db.Pairwise (fun a b => a.session_token ≠ b.session_token)) :
    db.find? (fun t => t.session_token == s.session_token) = some s := by
  induction db with
  | nil => cases hmem
  | cons a rest ih =>
    rw [List.pairwise_cons] at huniq
    rcases List.mem_cons.mp hmem with h | h
    · subst h
      simp [List.find?_cons]
    · have hne : (a.session_token == s.session_token) = false := by
        simp only [beq_eq_false_iff_ne, ne_eq]
        exact huniq.1 s h
      rw [List.find?_cons, hne]
      exact ih h huniq.2

/-!  C1: agent-task terminal states. -/

/-- C1, counterexample: terminal states are not absorbing.  A task whose
status is failed (a terminal state) is moved to completed by the complete
operation, so its status does change. -/
theorem complete_escapes_terminal_cex :
    (AgentTask.mk 1 1 1 none none none none TaskStatus.failed).status.is_terminal = true
  ∧ (complete_agent_task
      (AgentTask.mk 1 1 1 none none none none TaskStatus.failed) "out" 5).status
      ≠ (AgentTask.mk 1 1 1 none none none none TaskStatus.failed).status := by
  decide

/-- C1 (amended): complete forces status to completed and fail forces
status to failed from every prior state, terminal states included; only
the start operation refuses to move a task whose status is terminal (it
refuses every non-pending status); and invoking complete on an already
completed task, or fail on an already failed task, leaves the status
unchanged. -/
theorem agent_task_transition_forcing (task : AgentTask) (out err : String)
    (d : Int) (d2 : Option Int) :
    (complete_agent_task task out d).status = TaskStatus.completed
  ∧ (fail_agent_task task err d2).status = TaskStatus.failed
  ∧ (task.status.is_terminal = true →
      start_agent_task task =
        Except.error ⟨400, "Task is already " ++ task.status.value⟩)
  ∧ (task.status = TaskStatus.completed →
      (complete_agent_task task out d).status = task.status)
  ∧ (task.status = TaskStatus.failed →
      (fail_agent_task task err d2).status = task.status) := by
  refine ⟨rfl, rfl, ?_, ?_, ?_⟩
  · intro hterm
    have hne : task.status ≠ TaskStatus.pending := by
      intro hp
      rw [hp] at hterm
      exact absurd hterm (by decide)
    simp [start_agent_task, hne]
  · intro hc
    rw [hc]
    rfl
  · intro hf
    rw [hf]
    rfl

/-- Witness for the amended C1 theorem at concrete tasks. -/
theorem agent_task_transition_forcing_witness :
    start_agent_task (AgentTask.mk 2 1 1 none none none none TaskStatus.cancelled)
      = Except.error ⟨400, "Task is already cancelled"⟩
  ∧ (complete_agent_task
      (AgentTask.mk 3 1 1 none none none none TaskStatus.completed) "out" 1).status
      = TaskStatus.completed
  ∧ (fail_agent_task
      (AgentTask.mk 4 1 1 none none none none TaskStatus.failed) "err" none).status
      = TaskStatus.failed := by
  refine ⟨?_, ?_, ?_⟩
  · have h := (agent_task_transition_forcing
      (AgentTask.mk 2 1 1 none none none none TaskStatus.cancelled)
      "out" "err" 1 none).2.2.1 (by decide)
    exact h.trans (congrArg Except.error (congrArg (HttpError.mk 400) (by decide)))
  · have h := (agent_task_transition_forcing
      (AgentTask.mk 3 1 1 none none none none TaskStatus.completed)
      "out" "err" 1 none).2.2.2.1 rfl
    exact h.trans rfl
  · have h := (agent_task_transition_forcing
      (AgentTask.mk 4 1 1 none none none none TaskStatus.failed)
      "out" "err" 1 none).2.2.2.2 rfl
    exact h.trans rfl

/-!  C3: start legality. -/

/-- C3: starting a pending task moves it to in_progress and returns it;
starting a task in any other status raises a 400 whose detail names the
current status (the handler raises before mutating, so the stored task is
unchanged); consequently a second start on the same task always fails. -/
theorem start_agent_task_legality (task : AgentTask) :
    (task.status = TaskStatus.pending →
      start_agent_task task =
        Except.ok { task with status := TaskStatus.in_progress })
  ∧ (task.status ≠ TaskStatus.pending →
      start_agent_task task =
        Except.error ⟨400, "Task is already " ++ task.status.value⟩)
  ∧ (∀ task2, start_agent_task task = Except.ok task2 →
      ∃ e : HttpError, e.status_code = 400 ∧
        start_agent_task task2 = Except.error e) := by
  refine ⟨?_, ?_, ?_⟩
  · intro h
    simp [start_agent_task, h]
  · intro h
    simp [start_agent_task, h]
  · intro task2 h
    by_cases hp : task.status = TaskStatus.pending
    · rw [start_agent_task, if_neg (by simp [hp])] at h
      injection h with h
      refine ⟨⟨400, "Task is already " ++ TaskStatus.in_progress.value⟩, rfl, ?_⟩
      rw [← h]
      simp [start_agent_task]
    · simp [start_agent_task, hp] at h

/-- Witness for the C3 theorem at a concrete pending task. -/
theorem start_agent_task_legality_witness :
    start_agent_task (AgentTask.mk 5 1 1 none none none none TaskStatus.pending)
      = Except.ok (AgentTask.mk 5 1 1 none none none none TaskStatus.in_progress)
  ∧ start_agent_task (AgentTask.mk 5 1 1 none none none none TaskStatus.in_progress)
      = Except.error ⟨400, "Task is already in_progress"⟩ := by
  constructor
  · have h := (start_agent_task_legality
      (AgentTask.mk 5 1 1 none none none none TaskStatus.pending)).1 rfl
    exact h.trans rfl
  · have h := (start_agent_task_legality
      (AgentTask.mk 5 1 1 none none none none TaskStatus.in_progress)).2.1 (by decide)
    exact h.trans (congrArg Except.error (congrArg (HttpError.mk 400) (by decide)))

/-!  C10: fail with a zero duration. -/

/-- C10: fail with duration_ms = 0 sets status failed and records the
error reason, but keeps the previous duration_ms (Python treats 0 as
falsy); every nonzero duration is stored. -/
theorem fail_zero_duration_not_stored (task : AgentTask) (err : String) :
    (fail_agent_task task err (some 0)).status = TaskStatus.failed
  ∧ (fail_agent_task task err (some 0)).error_reason = some err
  ∧ (fail_agent_task task err (some 0)).duration_ms = task.duration_ms
  ∧ (∀ d : Int, d ≠ 0 →
      (fail_agent_task task err (some d)).duration_ms = some d) := by
  refine ⟨rfl, rfl, by simp [fail_agent_task], ?_⟩
  intro d hd
  simp [fail_agent_task, hd]

/-- Witness for the C10 theorem at a concrete task with a prior duration. -/
theorem fail_zero_duration_not_stored_witness :
    (fail_agent_task
      (AgentTask.mk 6 1 1 none none none (some 7) TaskStatus.in_progress)
      "boom" (some 0)).duration_ms = some 7
  ∧ (fail_agent_task
      (AgentTask.mk 6 1 1 none none none (some 7) TaskStatus.in_progress)
      "boom" (some 3)).duration_ms = some 3 := by
  constructor
  · exact (fail_zero_duration_not_stored
      (AgentTask.mk 6 1 1 none none none (some 7) TaskStatus.in_progress)
      "boom").2.2.1
  · exact (fail_zero_duration_not_stored
      (AgentTask.mk 6 1 1 none none none (some 7) TaskStatus.in_progress)
      "boom").2.2.2 3 (by decide)

/-!  C4: session expiry gate and refresh lease. -/

/-- C4: a stored session whose expiry is strictly in the past is rejected
with 401 by the token lookup, and refreshing any session at time now sets
its expiry to exactly now plus 24 hours, whatever it was before. -/
theorem session_expiry_gate_and_refresh (now : Int) (db : List SessionRow)
    (s : SessionRow) (hmem : s ∈ db)
    (huniq : db.Pairwise (fun a b => a.session_token ≠ b.session_token))
    (hexp : s.expires_at < now) :
    get_session_by_token now db s.session_token =
      Except.error ⟨401, "Session expired"⟩
  ∧ (∀ t : SessionRow, (refresh_session_row now t).expires_at = now + 24 * 3600)
  ∧ (∀ (db2 : List SessionRow) (sid : Nat) (s2 : SessionRow),
      refresh_session now db2 sid = Except.ok s2 →
        s2.expires_at = now + 24 * 3600) := by
  refine ⟨?_, fun _ => rfl, ?_⟩
  · unfold get_session_by_token
    rw [find_session_by_token_of_mem db s hmem huniq]
    simp [hexp]
  · intro db2 sid s2 h
    unfold refresh_session at h
    cases hf : db2.find? (fun t => t.session_id == sid) with
    | none => rw [hf] at h; cases h
    | some t =>
      rw [hf] at h
      cases h
      rfl

/-- Witness for the C4 theorem at a concrete expired session. -/
theorem session_expiry_gate_and_refresh_witness :
    get_session_by_token 1000 [SessionRow.mk 1 "u" "tok" 0 999] "tok" =
      Except.error ⟨401, "Session expired"⟩
  ∧ (refresh_session_row 1000 (SessionRow.mk 1 "u" "tok" 0 999)).expires_at
      = 1000 + 24 * 3600 := by
  have h := session_expiry_gate_and_refresh 1000 [SessionRow.mk 1 "u" "tok" 0 999]
    (SessionRow.mk 1 "u" "tok" 0 999) (List.mem_singleton.mpr rfl)
    (List.pairwise_singleton _ _) (by norm_num)
  exact ⟨h.1, h.2.1 (SessionRow.mk 1 "u" "tok" 0 999)⟩

/-!  C5: the two token estimators. -/

/-- C5: the draft-v1 estimator int(len * 0.5) and the draft-v2 estimator
int(len / 2.0) agree on every input text, and on a 1000-character text
both return 500. -/
theorem token_estimators_agree (text : List Char) :
    estimate_tokens_v1 text = estimate_tokens_v2 text
  ∧ (text.length = 1000 →
      estimate_tokens_v1 text = 500 ∧ estimate_tokens_v2 text = 500) := by
  have hq : ((text.length : ℚ)) * 0.5 = (text.length : ℚ) / 2 := by
    rw [show (0.5 : ℚ) = 1 / 2 by norm_num]
    ring
  have hagree : estimate_tokens_v1 text = estimate_tokens_v2 text := by
    unfold estimate_tokens_v1 estimate_tokens_v2
    rw [hq]
  refine ⟨hagree, ?_⟩
  intro hlen
  have h2 : estimate_tokens_v2 text = 500 := by
    unfold estimate_tokens_v2 pyInt
    rw [hlen]
    norm_num
  exact ⟨hagree.trans h2, h2⟩

/-- Witness for the C5 theorem at a concrete 1000-character text. -/
theorem token_estimators_agree_witness :
    estimate_tokens_v1 (List.replicate 1000 'x') = 500
  ∧ estimate_tokens_v2 (List.replicate 1000 'x') = 500 := by
  exact (token_estimators_agree (List.replicate 1000 'x')).2
    (by rw [List.length_replicate])

/-!  C9: the trending operation. -/

/-- C9: the trending handler never produces a value: its body is cut off
after binding the partially built query, there is no return statement,
and the handler yields none for every store and every argument. -/
theorem trending_never_returns (news_db : List News)
    (inter_db : List UserNewsInteraction) (lim hours : Nat) (now : Int) :
    get_trending_news news_db inter_db lim hours now = none := rfl

/-!  C2: password round trip. -/

/-- Every hex digit emitted by bytesToHex is below 16 in value and its
character is never the dollar separator. -/
theorem hexDigitChar_ne_dollar : ∀ n, n < 16 → hexDigitChar n ≠ '$' := by
  decide

/-- The dollar separator never occurs in a hex digest. -/
theorem dollar_not_mem_bytesToHex (bs : List Nat) : '$' ∉ bytesToHex bs := by
  intro hmem
  unfold bytesToHex at hmem
  rw [List.mem_flatten] at hmem
  obtain ⟨l, hl, hcl⟩ := hmem
  rw [List.mem_map] at hl
  obtain ⟨b, _, rfl⟩ := hl
  have h16a : b / 16 % 16 < 16 := Nat.mod_lt _ (by omega)
  have h16b : b % 16 < 16 := Nat.mod_lt _ (by omega)
  rcases List.mem_cons.mp hcl with h | h
  · exact hexDigitChar_ne_dollar _ h16a h.symm
  · rw [List.mem_singleton] at h
    exact hexDigitChar_ne_dollar _ h16b h.symm

/-- Splitting a dollar-free string yields the single whole piece. -/
theorem pySplitDollar_no_dollar (l : List Char) (h : '$' ∉ l) :
    pySplitDollar l = [l] := by
  induction l with
  | nil => rfl
  | cons c rest ih =>
    have hc : c ≠ '$' := fun hEq => h (hEq ▸ List.mem_cons_self c rest)
    have hrest : '$' ∉ rest := fun hm => h (List.mem_cons_of_mem c hm)
    rw [pySplitDollar, if_neg hc, ih hrest]

/-- Splitting salt ++ dollar ++ digest recovers exactly the two pieces
when neither piece contains a dollar. -/
theorem pySplitDollar_append (a b : List Char) (ha : '$' ∉ a) (hb : '$' ∉ b) :
    pySplitDollar (a ++ '$' :: b) = [a, b] := by
  induction a with
  | nil =>
    rw [List.nil_append, pySplitDollar, if_pos rfl, pySplitDollar_no_dollar b hb]
  | cons c rest ih =>
    have hc : c ≠ '$' := fun hEq => ha (hEq ▸ List.mem_cons_self c rest)
    have hrest : '$' ∉ rest := fun hm => ha (List.mem_cons_of_mem c hm)
    rw [List.cons_append, pySplitDollar, if_neg hc, ih hrest]

/-- C2: for every password, every key-derivation function and every salt
hash_password may draw (a string of lowercase hex characters),
verify_password accepts the password against its own hash. -/
theorem password_roundtrip (pbkdf2 : String → String → List Nat)
    (password : String) (salt : List Char)
    (hsalt : ∀ c ∈ salt, isTokenHexChar c = true) :
    verify_password pbkdf2 password (hash_password pbkdf2 salt password) = true := by
  have hds : '$' ∉ salt := fun hmem =>
    absurd (hsalt _ hmem) (by decide)
  have hdh : '$' ∉ bytesToHex (pbkdf2 password (String.mk salt)) :=
    dollar_not_mem_bytesToHex _
  unfold verify_password hash_password
  rw [pySplitDollar_append _ _ hds hdh]
  simp

/-- Witness for the C2 theorem at a concrete derivation function, salt
and password. -/
theorem password_roundtrip_witness :
    verify_password (fun _ _ => [0, 171]) "pw"
      (hash_password (fun _ _ => [0, 171]) ['a', 'b'] "pw") = true :=
  password_roundtrip (fun _ _ => [0, 171]) "pw" ['a', 'b'] (by decide)

/-!  C6: user soft delete. -/

/-- A successful mark_deleted found some user with the requested id. -/
theorem mark_deleted_mem (now : Int) (uid : String) :
    ∀ (db db2 : List User), mark_deleted now uid db = some db2 →
      ∃ w ∈ db, w.user_id = uid := by
  intro db
  induction db with
  | nil => intro db2 h; cases h
  | cons u rest ih =>
    intro db2 h
    rw [mark_deleted] at h
    by_cases hc : (u.user_id == uid && u.deleted_at.isNone) = true
    · rw [if_pos hc] at h
      rw [Bool.and_eq_true] at hc
      exact ⟨u, List.mem_cons_self u rest, by simpa using hc.1⟩
    · rw [if_neg hc] at h
      cases hm : mark_deleted now uid rest with
      | none => rw [hm] at h; cases h
      | some r2 =>
        obtain ⟨w, hw, hwid⟩ := ih r2 hm
        exact ⟨w, List.mem_cons_of_mem u hw, hwid⟩

/-- Full description of a successful soft delete on a store whose user
ids are pairwise distinct: the store keeps its length, the
deleted-at-filtering lookup no longer finds the id, the unfiltered
lookup still finds the row, now stamped with the deletion time, and
every row carrying the id is stamped. -/
theorem mark_deleted_spec (now : Int) (uid : String) :
    ∀ (db db2 : List User),
      db.Pairwise (fun a b => a.user_id ≠ b.user_id) →
      mark_deleted now uid db = some db2 →
        db2.length = db.length
      ∧ db2.find? (fun u => u.user_id == uid && u.deleted_at.isNone) = none
      ∧ (∃ v, db2.find? (fun u => u.user_id == uid) = some v
          ∧ v.user_id = uid ∧ v.deleted_at = some now)
      ∧ (∀ v ∈ db2, v.user_id = uid → v.deleted_at = some now) := by
  intro db
  induction db with
  | nil => intro db2 _ h; cases h
  | cons u rest ih =>
    intro db2 hpw h
    rw [List.pairwise_cons] at hpw
    rw [mark_deleted] at h
    by_cases hc : (u.user_id == uid && u.deleted_at.isNone) = true
    · rw [if_pos hc] at h
      injection h with h
      subst h
      rw [Bool.and_eq_true] at hc
      have huid : u.user_id = uid := by simpa using hc.1
      refine ⟨rfl, ?_, ?_, ?_⟩
      · rw [List.find?_cons]
        have hhead :
            (({ u with deleted_at := some now } : User).user_id == uid &&
              ({ u with deleted_at := some now } : User).deleted_at.isNone) = false := by
          simp
        rw [hhead, List.find?_eq_none]
        intro x hx hpx
        rw [Bool.and_eq_true] at hpx
        have hxid : x.user_id = uid := by simpa using hpx.1
        have hne := hpw.1 x hx
        rw [huid, ← hxid] at hne
        exact hne rfl
      · refine ⟨{ u with deleted_at := some now }, ?_, huid, rfl⟩
        rw [List.find?_cons]
        have hhead : (({ u with deleted_at := some now } : User).user_id == uid) = true := by
          simp [huid]
        rw [hhead]
      · intro v hv hvid
        rcases List.mem_cons.mp hv with h1 | h1
        · subst h1; rfl
        · have hne := hpw.1 v h1
          rw [huid, ← hvid] at hne
          exact absurd rfl hne
    · rw [if_neg hc] at h
      cases hm : mark_deleted now uid rest with
      | none => rw [hm] at h; cases h
      | some r2 =>
        rw [hm] at h
        simp only [Option.map_some'] at h
        injection h with h
        subst h
        obtain ⟨hlen, hfnone, ⟨v, hfv, hvid, hvdel⟩, hall⟩ := ih r2 hpw.2 hm
        obtain ⟨w, hwmem, hwid⟩ := mark_deleted_mem now uid rest r2 hm
        have hune : u.user_id ≠ uid := by
          have hne := hpw.1 w hwmem
          rw [hwid] at hne
          exact hne
        have hcf : (u.user_id == uid && u.deleted_at.isNone) = false := by
          revert hc
          cases u.user_id == uid && u.deleted_at.isNone <;> simp
        refine ⟨by simp [hlen], ?_, ⟨v, ?_, hvid, hvdel⟩, ?_⟩
        · rw [List.find?_cons, hcf]
          exact hfnone
        · rw [List.find?_cons]
          have hhead : (u.user_id == uid) = false := by simp [hune]
          rw [hhead]
          exact hfv
        · intro x hx hxid
          rcases List.mem_cons.mp hx with h1 | h1
          · subst h1; exact absurd hxid hune
          · exact hall x h1 hxid

/-- C6: after delete_user stamps a user, get_user for that id returns
404, every listing excludes the id, yet the row is still reachable by
the activate-style lookup that does not filter on deletion time, and the
store keeps the same number of rows. -/
theorem user_soft_delete_excludes (now : Int) (uid : String)
    (db db2 : List User)
    (huniq : db.Pairwise (fun a b => a.user_id ≠ b.user_id))
    (hdel : delete_user now uid db = Except.ok db2) :
    get_user uid db2 = Except.error ⟨404, "User not found"⟩
  ∧ (∀ skip lim, ∀ v ∈ get_users skip lim db2, v.user_id ≠ uid)
  ∧ (∃ v, find_user_unfiltered uid db2 = some v
      ∧ v.user_id = uid ∧ v.deleted_at = some now)
  ∧ db2.length = db.length := by
  unfold delete_user at hdel
  cases hm : mark_deleted now uid db with
  | none => rw [hm] at hdel; cases hdel
  | some r =>
    rw [hm] at hdel
    injection hdel with hdel
    subst hdel
    obtain ⟨hlen, hfnone, hexists, hall⟩ := mark_deleted_spec now uid db r huniq hm
    refine ⟨?_, ?_, hexists, hlen⟩
    · unfold get_user
      rw [hfnone]
    · intro skip lim v hv heq
      unfold get_users at hv
      have hvf : v ∈ r.filter (fun u => u.deleted_at.isNone) :=
        List.mem_of_mem_drop (List.mem_of_mem_take hv)
      have hvr : v ∈ r := (List.mem_filter.mp hvf).1
      have hlive : v.deleted_at.isNone = true := (List.mem_filter.mp hvf).2
      have hdead := hall v hvr heq
      rw [hdead] at hlive
      cases hlive

/-- Witness for the C6 theorem at a concrete one-user store. -/
theorem user_soft_delete_excludes_witness :
    get_user "id1" [User.mk "id1" "e" none none (some 50)] =
      Except.error ⟨404, "User not found"⟩
  ∧ (∃ v, find_user_unfiltered "id1" [User.mk "id1" "e" none none (some 50)] = some v
      ∧ v.user_id = "id1" ∧ v.deleted_at = some 50) := by
  have h := user_soft_delete_excludes 50 "id1"
    [User.mk "id1" "e" none none none]
    [User.mk "id1" "e" none none (some 50)]
    (List.pairwise_singleton _ _) rfl
  exact ⟨h.1, h.2.2.1⟩

/-!  C7: SimHash dedup rule. -/

/-- Bitwise AND of an odd number with its predecessor clears the low bit. -/
theorem land_odd_pred (k : Nat) : (2 * k + 1) &&& (2 * k) = 2 * k := by
  apply Nat.eq_of_testBit_eq
  intro i
  cases i with
  | zero =>
    rw [Nat.testBit_land]
    rw [Nat.testBit_zero, Nat.testBit_zero]
    have h1 : (2 * k + 1) % 2 = 1 := by omega
    have h2 : (2 * k) % 2 = 0 := by omega
    rw [h1, h2]
    simp
  | succ i =>
    rw [Nat.testBit_land]
    simp only [Nat.testBit_succ]
    have h1 : (2 * k + 1) / 2 = k := by omega
    have h2 : (2 * k) / 2 = k := by omega
    rw [h1, h2]
    exact Bool.and_self _

/-- Bitwise AND of a positive even number with its predecessor, pushed
through the shared factor 2. -/
theorem land_even_pred (k : Nat) (hk : 0 < k) :
    (2 * k) &&& (2 * k - 1) = 2 * (k &&& (k - 1)) := by
  apply Nat.eq_of_testBit_eq
  intro i
  cases i with
  | zero =>
    rw [Nat.testBit_land]
    rw [Nat.testBit_zero, Nat.testBit_zero, Nat.testBit_zero]
    have h1 : (2 * k) % 2 = 0 := by omega
    have h2 : (2 * (k &&& (k - 1))) % 2 = 0 := by omega
    rw [h1, h2]
    simp
  | succ i =>
    rw [Nat.testBit_land]
    simp only [Nat.testBit_succ]
    have h1 : (2 * k) / 2 = k := by omega
    have h2 : (2 * k - 1) / 2 = k - 1 := by omega
    have h3 : (2 * (k &&& (k - 1))) / 2 = k &&& (k - 1) := by omega
    rw [h1, h2, h3, Nat.testBit_land]

/-- popCountRef satisfies the binary unfolding at every argument. -/
theorem popCountRef_eq (n : Nat) : popCountRef n = n % 2 + popCountRef (n / 2) := by
  cases n with
  | zero => simp [popCountRef]
  | succ m => simp [popCountRef]

/-- popCountRef ignores a factor 2. -/
theorem popCountRef_two_mul (k : Nat) : popCountRef (2 * k) = popCountRef k := by
  rw [popCountRef_eq]
  have h1 : (2 * k) % 2 = 0 := by omega
  have h2 : (2 * k) / 2 = k := by omega
  rw [h1, h2]
  exact Nat.zero_add _

/-- popCountRef counts the extra low bit of an odd number. -/
theorem popCountRef_two_mul_add_one (k : Nat) :
    popCountRef (2 * k + 1) = 1 + popCountRef k := by
  rw [popCountRef_eq]
  have h1 : (2 * k + 1) % 2 = 1 := by omega
  have h2 : (2 * k + 1) / 2 = k := by omega
  rw [h1, h2]

/-- Clearing the lowest set bit removes exactly one from the popcount. -/
theorem popCountRef_clear_lowest (m : Nat) (hm : 0 < m) :
    1 + popCountRef (m &&& (m - 1)) = popCountRef m := by
  induction m using Nat.strong_induction_on with
  | _ m ih =>
    rcases Nat.even_or_odd m with ⟨k, hk⟩ | ⟨k, hk⟩
    · have hk2 : m = 2 * k := by omega
      subst hk2
      have hkpos : 0 < k := by omega
      rw [land_even_pred k hkpos, popCountRef_two_mul, popCountRef_two_mul]
      exact ih k (by omega) hkpos
    · subst hk
      have h1 : 2 * k + 1 - 1 = 2 * k := by omega
      rw [h1, land_odd_pred, popCountRef_two_mul, popCountRef_two_mul_add_one]

/-- The fueled Kernighan loop computes the reference popcount whenever it
starts with enough fuel, in particular with fuel equal to its argument. -/
theorem kernighanGo_eq (fuel : Nat) :
    ∀ x, x ≤ fuel → kernighanGo fuel x = popCountRef x := by
  induction fuel with
  | zero =>
    intro x hx
    have hx0 : x = 0 := by omega
    subst hx0
    simp [kernighanGo, popCountRef]
  | succ f ih =>
    intro x hx
    cases x with
    | zero => simp [kernighanGo, popCountRef]
    | succ y =>
      show 1 + kernighanGo f ((y + 1) &&& y) = popCountRef (y + 1)
      have hle : (y + 1) &&& y ≤ f := le_trans Nat.and_le_right (by omega)
      rw [ih _ hle]
      have h := popCountRef_clear_lowest (y + 1) (Nat.succ_pos y)
      simpa using h

/-- The loop in hamming_distance computes the popcount of the XOR. -/
theorem hamming_distance_eq_popCountRef (hash1 hash2 : Nat) :
    hamming_distance hash1 hash2 = popCountRef (hash1 ^^^ hash2) :=
  kernighanGo_eq _ _ le_rfl

/-- For a value below 2 to the w, the popcount counts the set bits among
the first w positions. -/
theorem popCountRef_eq_countP (w : Nat) :
    ∀ n, n < 2 ^ w →
      popCountRef n = (List.range w).countP (fun i => n.testBit i) := by
  induction w with
  | zero =>
    intro n h
    have hn : n = 0 := by
      have : (2 : Nat) ^ 0 = 1 := by norm_num
      omega
    subst hn
    simp [popCountRef]
  | succ w ih =>
    intro n h
    rw [List.range_succ_eq_map, List.countP_cons, List.countP_map]
    have hdiv : n / 2 < 2 ^ w := by
      rw [pow_succ] at h
      omega
    have hcomp : ((fun i => n.testBit i) ∘ Nat.succ) = fun i => (n / 2).testBit i := by
      funext i
      simp only [Function.comp]
      rw [Nat.testBit_succ]
    rw [hcomp, ← ih (n / 2) hdiv, popCountRef_eq, Nat.testBit_zero]
    rcases Nat.mod_two_eq_zero_or_one n with h2 | h2 <;> rw [h2] <;> simp [Nat.add_comm]

/-- C7: in the batch dedup step a fetched article is kept exactly when
its fingerprint is at Hamming distance at least 3 from the fingerprint
of every previously kept article, and discarded when some previously
kept fingerprint is at distance strictly below 3; and hamming_distance
equals the number of the 64 bit positions in which the two fingerprints
differ, i.e. the popcount of their XOR. -/
theorem simhash_dedup_rule :
    (∀ (simhashOf : RawArticle → Nat) (seen : List Nat) (a : RawArticle)
        (rest : List RawArticle),
      (∀ s ∈ seen, 3 ≤ hamming_distance (simhashOf a) s) →
        dedup_articles simhashOf seen (a :: rest) =
          a :: dedup_articles simhashOf (simhashOf a :: seen) rest)
  ∧ (∀ (simhashOf : RawArticle → Nat) (seen : List Nat) (a : RawArticle)
        (rest : List RawArticle),
      (∃ s ∈ seen, hamming_distance (simhashOf a) s < 3) →
        dedup_articles simhashOf seen (a :: rest) =
          dedup_articles simhashOf seen rest)
  ∧ (∀ hash1 hash2 : Nat, hash1 < 2 ^ 64 → hash2 < 2 ^ 64 →
      hamming_distance hash1 hash2 =
        (List.range 64).countP
          (fun i => hash1.testBit i != hash2.testBit i)) := by
  refine ⟨?_, ?_, ?_⟩
  · intro so seen a rest hall
    have hany :
        (seen.any (fun s => decide (hamming_distance (so a) s < 3))) = false := by
      rw [List.any_eq_false]
      intro s hs
      simp only [decide_eq_true_eq]
      exact Nat.not_lt.mpr (hall s hs)
    show (if seen.any (fun s => decide (hamming_distance (so a) s < 3)) then
        dedup_articles so seen rest
      else a :: dedup_articles so (so a :: seen) rest) =
      a :: dedup_articles so (so a :: seen) rest
    simp [hany]
  · intro so seen a rest hex
    have hany :
        (seen.any (fun s => decide (hamming_distance (so a) s < 3))) = true := by
      rw [List.any_eq_true]
      obtain ⟨s, hs, hlt⟩ := hex
      exact ⟨s, hs, by simpa using hlt⟩
    show (if seen.any (fun s => decide (hamming_distance (so a) s < 3)) then
        dedup_articles so seen rest
      else a :: dedup_articles so (so a :: seen) rest) =
      dedup_articles so seen rest
    simp [hany]
  · intro hash1 hash2 hb1 hb2
    rw [hamming_distance_eq_popCountRef]
    have hxor : hash1 ^^^ hash2 < 2 ^ 64 := Nat.xor_lt_two_pow hb1 hb2
    rw [popCountRef_eq_countP 64 _ hxor]
    have hpred : (fun i => (hash1 ^^^ hash2).testBit i) =
        fun i => hash1.testBit i != hash2.testBit i := by
      funext i
      rw [Nat.testBit_xor]
    rw [hpred]

/-- Witness for the C7 theorem: with no prior fingerprint an article is
kept, with an identical prior fingerprint (distance 0 < 3) it is
dropped, and the distance of two zero fingerprints counts their zero
differing bits. -/
theorem simhash_dedup_rule_witness :
    dedup_articles (fun _ => 0) [] [RawArticle.mk "s" "u" "t" "c"] =
      [RawArticle.mk "s" "u" "t" "c"]
  ∧ dedup_articles (fun _ => 0) [0] [RawArticle.mk "s" "u" "t" "c"] = []
  ∧ hamming_distance 0 0 =
      (List.range 64).countP
        (fun i => (0 : Nat).testBit i != (0 : Nat).testBit i) := by
  refine ⟨?_, ?_, ?_⟩
  · have h := simhash_dedup_rule.1 (fun _ => 0) [] (RawArticle.mk "s" "u" "t" "c") []
      (by intro s hs; cases hs)
    exact h.trans rfl
  · have h := simhash_dedup_rule.2.1 (fun _ => 0) [0] (RawArticle.mk "s" "u" "t" "c") []
      ⟨0, List.mem_singleton.mpr rfl, by decide⟩
    exact h.trans rfl
  · exact simhash_dedup_rule.2.2 0 0 (by norm_num) (by norm_num)

/-!  C8: URL normalization. -/

/-- dropWhile is the identity when the head fails the predicate. -/
theorem dropWhile_eq_self_of_head (p : Char → Bool) (l : List Char)
    (h : ∀ c, l.head? = some c → p c = false) : l.dropWhile p = l := by
  cases l with
  | nil => rfl
  | cons c rest =>
    rw [List.dropWhile_cons, h c rfl]
    simp

/-- pyStrip is the identity on a string with no surrounding whitespace. -/
theorem pyStrip_eq_self (l : List Char)
    (hh : ∀ c, l.head? = some c → isPySpace c = false)
    (hl : ∀ c, l.getLast? = some c → isPySpace c = false) :
    pyStrip l = l := by
  unfold pyStrip
  rw [dropWhile_eq_self_of_head _ _ hh]
  rw [dropWhile_eq_self_of_head _ _
    (fun c hc => hl c (by rwa [List.head?_reverse] at hc))]
  exact List.reverse_reverse l

/-- Every character of a stripped string comes from the original. -/
theorem pyStrip_subset (l : List Char) : ∀ c ∈ pyStrip l, c ∈ l := by
  intro c hc
  unfold pyStrip at hc
  rw [List.mem_reverse] at hc
  have h1 : c ∈ (l.dropWhile isPySpace).reverse :=
    (List.dropWhile_sublist _).subset hc
  rw [List.mem_reverse] at h1
  exact (List.dropWhile_sublist _).subset h1

/-- subFrom is the identity when no character is in the start class. -/
theorem subFrom_eq_self (isStart : Char → Bool) (l : List Char)
    (h : ∀ c ∈ l, isStart c = false) : subFrom isStart l = l := by
  induction l with
  | nil => rfl
  | cons c rest ih =>
    show (if isStart c && tailMatch rest then
        (if rest.all (fun x => x != '\n') then [] else ['\n'])
      else c :: subFrom isStart rest) = c :: rest
    rw [h c (List.mem_cons_self c rest)]
    simp [ih (fun x hx => h x (List.mem_cons_of_mem c hx))]

/-- On a newline-free input, every character surviving subFrom comes from
the input and lies outside the start class: the substitution removes
everything from the first start character to the end. -/
theorem subFrom_mem (isStart : Char → Bool) (l : List Char)
    (hnl : ∀ c ∈ l, c ≠ '\n') :
    ∀ c ∈ subFrom isStart l, c ∈ l ∧ isStart c = false := by
  induction l with
  | nil => intro c hc; cases hc
  | cons a rest ih =>
    intro c hc
    have hrest : ∀ x ∈ rest, x ≠ '\n' := fun x hx => hnl x (List.mem_cons_of_mem a hx)
    have hall : rest.all (fun x => x != '\n') = true := by
      rw [List.all_eq_true]
      intro x hx
      simpa using hrest x hx
    by_cases hs : isStart a = true
    · have htm : tailMatch rest = true := by
        unfold tailMatch
        rw [hall]
        rfl
      have hred : subFrom isStart (a :: rest) = [] := by
        show (if isStart a && tailMatch rest then
            (if rest.all (fun x => x != '\n') then [] else ['\n'])
          else a :: subFrom isStart rest) = []
        rw [hs, htm, hall]
        rfl
      rw [hred] at hc
      cases hc
    · have hsf : isStart a = false := by
        revert hs
        cases isStart a <;> simp
      have hred : subFrom isStart (a :: rest) = a :: subFrom isStart rest := by
        show (if isStart a && tailMatch rest then
            (if rest.all (fun x => x != '\n') then [] else ['\n'])
          else a :: subFrom isStart rest) = a :: subFrom isStart rest
        rw [hsf]
        rfl
      rw [hred] at hc
      rcases List.mem_cons.mp hc with h1 | h1
      · refine ⟨List.mem_cons.mpr (Or.inl h1), ?_⟩
        rw [h1]
        exact hsf
      · obtain ⟨hm, hns⟩ := ih hrest c h1
        exact ⟨List.mem_cons_of_mem a hm, hns⟩

/-- C8, counterexample: the claim fails as stated.  The URL made of a
leading space and a letter contains no query string and no fragment,
yet draft v1 strips the space, so normalization does not return the
identical string. -/
theorem normalize_url_not_identity_cex :
    normalize_url_v1 [' ', 'a'] = ['a']
  ∧ normalize_url_v1 [' ', 'a'] ≠ [' ', 'a'] := by
  decide

/-- C8 (amended): draft v1 normalization is the identity on a URL with
no query marker, no fragment marker and no surrounding whitespace;
draft v2, which first lowercases, is additionally the identity only
when the lowercasing pass leaves the URL unchanged.  And both
normalizers strip every question mark and every hash sign from every
newline-free URL — in particular from one containing both a query
string and a fragment — draft v2 provided its lowercased form is
newline-free. -/
theorem normalize_url_amended (lower : List Char → List Char) (url : List Char) :
    ((∀ c ∈ url, c ≠ '?' ∧ c ≠ '#') →
     (∀ c, url.head? = some c → isPySpace c = false) →
     (∀ c, url.getLast? = some c → isPySpace c = false) →
       normalize_url_v1 url = url
     ∧ (lower url = url → normalize_url_v2 lower url = url))
  ∧ ((∀ c ∈ url, c ≠ '\n') →
      (∀ c ∈ normalize_url_v1 url, c ≠ '?' ∧ c ≠ '#'))
  ∧ ((∀ c ∈ lower url, c ≠ '\n') →
      (∀ c ∈ normalize_url_v2 lower url, c ≠ '?' ∧ c ≠ '#')) := by
  refine ⟨?_, ?_, ?_⟩
  · intro hq hh hl
    have hstrip : pyStrip url = url := pyStrip_eq_self url hh hl
    have hnostart : ∀ c ∈ url, (c == '?' || c == '#') = false := by
      intro c hc
      have := hq c hc
      simp [this.1, this.2]
    constructor
    · unfold normalize_url_v1
      rw [hstrip]
      exact subFrom_eq_self _ _ hnostart
    · intro hlow
      unfold normalize_url_v2
      rw [hlow, hstrip]
      rw [subFrom_eq_self (fun c => c == '?') url
        (fun c hc => by simp [(hq c hc).1])]
      exact subFrom_eq_self _ _ (fun c hc => by simp [(hq c hc).2])
  · intro hnl c hc
    unfold normalize_url_v1 at hc
    have hbase : ∀ x ∈ pyStrip url, x ≠ '\n' :=
      fun x hx => hnl x (pyStrip_subset url x hx)
    have := (subFrom_mem _ _ hbase c hc).2
    constructor
    · intro h1
      rw [h1] at this
      simp at this
    · intro h1
      rw [h1] at this
      simp at this
  · intro hnl c hc
    unfold normalize_url_v2 at hc
    have hbase : ∀ x ∈ pyStrip (lower url), x ≠ '\n' :=
      fun x hx => hnl x (pyStrip_subset _ x hx)
    have hmid : ∀ x ∈ subFrom (fun b => b == '?') (pyStrip (lower url)),
        x ≠ '\n' :=
      fun x hx => hbase x (subFrom_mem _ _ hbase x hx).1
    obtain ⟨hm2, hns2⟩ := subFrom_mem _ _ hmid c hc
    obtain ⟨_, hns1⟩ := subFrom_mem _ _ hbase c hm2
    constructor
    · intro h1
      rw [h1] at hns1
      simp at hns1
    · intro h1
      rw [h1] at hns2
      simp at hns2

/-- Witness for the amended C8 theorem at concrete URLs and a concrete
lowercasing pass (the identity map, which agrees with Python str.lower
on the lowercase ASCII strings used): an already canonical URL is fixed
by both drafts, and a URL with both a query string and a fragment loses
every query and fragment marker. -/
theorem normalize_url_amended_witness :
    normalize_url_v1 ['h', 't', 't', 'p'] = ['h', 't', 't', 'p']
  ∧ normalize_url_v2 (fun l => l) ['h', 't', 't', 'p'] = ['h', 't', 't', 'p']
  ∧ (∀ c ∈ normalize_url_v1 ['a', '?', 'q', '#', 'f'], c ≠ '?' ∧ c ≠ '#')
  ∧ (∀ c ∈ normalize_url_v2 (fun l => l) ['a', '?', 'q', '#', 'f'],
      c ≠ '?' ∧ c ≠ '#') := by
  have h1 := (normalize_url_amended (fun l => l) ['h', 't', 't', 'p']).1
    (by decide)
    (by intro c hc; cases hc; decide)
    (by intro c hc; cases hc; decide)
  have h2 := (normalize_url_amended (fun l => l) ['a', '?', 'q', '#', 'f']).2.1
    (by decide)
  have h3 := (normalize_url_amended (fun l => l) ['a', '?', 'q', '#', 'f']).2.2
    (by decide)
  exact ⟨h1.1, h1.2 rfl, h2, h3⟩
